import Mathlib

/-!
Shallow embedding of the Yarrow-style PRNG from `src/prng.rs`.

The SHA3-512 digest is an external collaborator (the `sha3` crate); it is
modelled as a parameter `digest : List Nat → List Nat`. Claims that depend on
the digest width carry the hypothesis that every digest output has length 64
(SHA3-512 produces 512 bits = 64 bytes). The wall clock is likewise external
and is passed in as an explicit reading (`current_time` for seconds, a stream
`clock : Nat → Nat` of nanosecond readings for `shuffle`).

Machine integers: `u64` values are modelled as `Nat` with explicit `% 2 ^ 64`
wherever the Rust code wraps (`wrapping_mul`, `wrapping_add`, `<<` on u64);
bytes are `Nat` values below 256.
-/

namespace Horizon

/-- `u64::to_be_bytes`: the 8 big-endian bytes of the low 64 bits of `n`. -/
def toBeBytes (n : Nat) : List Nat :=
  [n / 2 ^ 56 % 256, n / 2 ^ 48 % 256, n / 2 ^ 40 % 256, n / 2 ^ 32 % 256,
   n / 2 ^ 24 % 256, n / 2 ^ 16 % 256, n / 2 ^ 8 % 256, n % 256]

/-- The generator state: `struct Yarrow { seed: u64, pool: VecDeque<u8>,
last_reseed_time: u64 }`. -/
structure Yarrow where
  seed : Nat
  pool : List Nat
  last_reseed_time : Nat
deriving DecidableEq, Repr

/-- `Yarrow::new(seed)`. -/
def Yarrow.new (seed : Nat) : Yarrow :=
  { seed := seed, pool := [], last_reseed_time := 0 }

/-- `Yarrow::add_entropy`: hash the big-endian bytes of `entropy` and append
every digest byte to the pool tail. -/
def add_entropy (digest : List Nat → List Nat) (entropy : Nat) (s : Yarrow) :
    Yarrow :=
  { s with pool := s.pool ++ digest (toBeBytes entropy) }

/-- `Yarrow::combine_entropy`: fold the pool into a scalar starting from
`seed` by `combined = combined.wrapping_mul(33).wrapping_add(byte)`, then
exclusive-or `last_reseed_time` into the result. Pure: takes `&self`. -/
def combine_entropy (s : Yarrow) : Nat :=
  Nat.xor (s.pool.foldl (fun c b => (c * 33 + b) % 2 ^ 64) s.seed)
    s.last_reseed_time

/-- `Yarrow::mix_entropy`: hash the current pool contents followed by the 8
big-endian bytes of `entropy`, and replace the pool with the digest output. -/
def mix_entropy (digest : List Nat → List Nat) (entropy : Nat) (s : Yarrow) :
    Yarrow :=
  { s with pool := digest (s.pool ++ toBeBytes entropy) }

/-- `Yarrow::reseed`: unconditionally `add_entropy(new_seed)` then
`mix_entropy(combine_entropy())`; then, if more than 60 seconds have passed
since `last_reseed_time`, record `current_time` and xor `new_seed` into
`seed`. `current_time` is the wall-clock reading (seconds since epoch). -/
def reseed (digest : List Nat → List Nat) (current_time new_seed : Nat)
    (s : Yarrow) : Yarrow :=
  let s1 := add_entropy digest new_seed s
  let s2 := mix_entropy digest (combine_entropy s1) s1
  if current_time - s2.last_reseed_time > 60 then
    { s2 with last_reseed_time := current_time,
              seed := Nat.xor s2.seed new_seed }
  else s2

/-- One iteration of the `generate_random_bytes` loop body acting on the
state: mix the combined scalar back into the pool. -/
def grbStep (digest : List Nat → List Nat) (s : Yarrow) : Yarrow :=
  mix_entropy digest (combine_entropy s) s

/-- The `for _ in 0..count` loop of `generate_random_bytes`: each iteration
computes `combine_entropy()`, mixes it back, and pushes its low 8 bits. -/
def grbLoop (digest : List Nat → List Nat) : Nat → Yarrow → List Nat × Yarrow
  | 0, s => ([], s)
  | n + 1, s =>
    let e := combine_entropy s
    let s1 := mix_entropy digest e s
    let r := grbLoop digest n s1
    (Nat.land e 255 :: r.1, r.2)

/-- `Yarrow::generate_random_bytes(count)`: run the loop, then reseed with the
last emitted byte (`unwrap_or(0)` when there is none). Returns the bytes and
the final state. -/
def generate_random_bytes (digest : List Nat → List Nat)
    (current_time count : Nat) (s : Yarrow) : List Nat × Yarrow :=
  let r := grbLoop digest count s
  let last_byte := r.1.getLast?.getD 0
  (r.1, reseed digest current_time last_byte r.2)

/-- `Yarrow::generate_random_number()`: generate 8 bytes and pack them with
`random_number = (random_number << 8) | byte` on `u64`. -/
def generate_random_number (digest : List Nat → List Nat)
    (current_time : Nat) (s : Yarrow) : Nat × Yarrow :=
  let r := generate_random_bytes digest current_time 8 s
  (r.1.foldl (fun a b => Nat.lor (a <<< 8 % 2 ^ 64) b) 0, r.2)

/-- `Yarrow::generate_bounded_number(min, max)`:
`min + (generate_random_number() % (max - min + 1))`. -/
def generate_bounded_number (digest : List Nat → List Nat)
    (current_time min max : Nat) (s : Yarrow) : Nat × Yarrow :=
  let r := generate_random_number digest current_time s
  (min + r.1 % (max - min + 1), r.2)

/-- `<[T]>::swap(i, j)` on a list; out-of-range indices leave the list
unchanged (in the Rust source the indices are always in range). -/
def listSwap {α : Type _} (l : List α) (i j : Nat) : List α :=
  match l.get? i, l.get? j with
  | some a, some b => (l.set i b).set j a
  | some _, none => l
  | none, _ => l

/-- The `for i in (1..len).rev()` loop of `shuffle`: the first argument is the
index of the next clock reading, the second the current loop index. -/
def shuffleGo {α : Type _} (clock : Nat → Nat) :
    Nat → Nat → List α → List α
  | _, 0, l => l
  | k, i + 1, l => shuffleGo clock (k + 1) i (listSwap l (i + 1) (clock k % (i + 2)))

/-- `shuffle(items)`: Fisher–Yates over indices `len-1` down to `1`, drawing
`j = clock_nanos % (i + 1)` from the wall clock at each step. `clock k` is the
value of the `k`-th clock read performed by the call. -/
def shuffle {α : Type _} (clock : Nat → Nat) (l : List α) : List α :=
  shuffleGo clock 0 (l.length - 1) l

/-- Specification-side value of the pool polynomial: the pool bytes read as
coefficients of powers of 33, earliest byte at the highest power. -/
def polyPool : List Nat → Nat
  | [] => 0
  | b :: rest => b * 33 ^ rest.length + polyPool rest

/-- Specification-side big-endian packing of a byte list, most significant
byte first. -/
def bePack (bytes : List Nat) : Nat :=
  bytes.foldl (fun a b => a * 256 + b) 0

/-- A concrete stand-in digest used to instantiate theorems at concrete
inputs: it has the same output width as SHA3-512 (64 bytes). -/
def constDigest : List Nat → List Nat := fun _ => List.replicate 64 1

theorem constDigest_length (l : List Nat) : (constDigest l).length = 64 := by
  simp [constDigest]

/-- C8: neither `add_entropy` nor `mix_entropy` modifies the `seed` field, for
every generator state, digest function and input value. -/
theorem seed_frame (digest : List Nat → List Nat) (v : Nat) (s : Yarrow) :
    (add_entropy digest v s).seed = s.seed ∧
    (mix_entropy digest v s).seed = s.seed :=
  ⟨rfl, rfl⟩

/-- C3: immediately after any `mix_entropy` call the pool is exactly the
digest of the old pool followed by the entropy bytes — a full replacement —
and therefore is exactly one digest width (64 bytes) long. -/
theorem mix_entropy_spec (digest : List Nat → List Nat)
    (hd : ∀ l, (digest l).length = 64) (e : Nat) (s : Yarrow) :
    (mix_entropy digest e s).pool = digest (s.pool ++ toBeBytes e) ∧
    ((mix_entropy digest e s).pool).length = 64 :=
  ⟨rfl, hd _⟩

/-- Witness for C3 at the concrete digest and state. -/
theorem mix_entropy_spec_witness :
    (mix_entropy constDigest 0 (Yarrow.new 7)).pool =
      constDigest ((Yarrow.new 7).pool ++ toBeBytes 0) ∧
    ((mix_entropy constDigest 0 (Yarrow.new 7)).pool).length = 64 :=
  mix_entropy_spec constDigest constDigest_length 0 (Yarrow.new 7)

/-- C9: `add_entropy(v)` appends the digest of the big-endian encoding of `v`
to the pool tail: the length grows by exactly 64, the old bytes keep their
positions, and the pool strictly changes. -/
theorem add_entropy_spec (digest : List Nat → List Nat)
    (hd : ∀ l, (digest l).length = 64) (v : Nat) (s : Yarrow) :
    (add_entropy digest v s).pool = s.pool ++ digest (toBeBytes v) ∧
    ((add_entropy digest v s).pool).length = s.pool.length + 64 ∧
    ((add_entropy digest v s).pool).take s.pool.length = s.pool ∧
    (add_entropy digest v s).pool ≠ s.pool := by
  refine ⟨rfl, by simp [add_entropy, hd], ?_, ?_⟩
  · simp [add_entropy]
  · intro hEq
    have hLen := congrArg List.length hEq
    simp [add_entropy, hd] at hLen

/-- Witness for C9 at the concrete digest, value and state. -/
theorem add_entropy_spec_witness :
    (add_entropy constDigest 3 (Yarrow.new 7)).pool =
      (Yarrow.new 7).pool ++ constDigest (toBeBytes 3) ∧
    ((add_entropy constDigest 3 (Yarrow.new 7)).pool).length =
      ((Yarrow.new 7).pool).length + 64 ∧
    ((add_entropy constDigest 3 (Yarrow.new 7)).pool).take
      ((Yarrow.new 7).pool).length = (Yarrow.new 7).pool ∧
    (add_entropy constDigest 3 (Yarrow.new 7)).pool ≠ (Yarrow.new 7).pool :=
  add_entropy_spec constDigest constDigest_length 3 (Yarrow.new 7)

/-- C2: assuming the clock did not run backwards, `reseed` always rewrites the
pool through `add_entropy` then `mix_entropy` of the combined scalar, and it
updates `seed` (to `seed XOR new_seed`) and `last_reseed_time` (to
`current_time`) exactly when `current_time - last_reseed_time > 60`; otherwise
both are unchanged. -/
theorem reseed_spec (digest : List Nat → List Nat)
    (current_time new_seed : Nat) (s : Yarrow)
    (_hclk : s.last_reseed_time ≤ current_time) :
    (reseed digest current_time new_seed s).pool =
      (mix_entropy digest (combine_entropy (add_entropy digest new_seed s))
        (add_entropy digest new_seed s)).pool ∧
    (reseed digest current_time new_seed s).seed =
      (if 60 < current_time - s.last_reseed_time then Nat.xor s.seed new_seed
       else s.seed) ∧
    (reseed digest current_time new_seed s).last_reseed_time =
      (if 60 < current_time - s.last_reseed_time then current_time
       else s.last_reseed_time) := by
  unfold reseed
  by_cases hc : 60 < current_time - s.last_reseed_time <;>
    simp [hc, add_entropy, mix_entropy]

theorem land_255_eq_mod (e : Nat) : Nat.land e 255 = e % 256 := by
  have h := Nat.and_pow_two_sub_one_eq_mod e 8
  norm_num at h
  exact h

/-- Closed form of the `generate_random_bytes` loop: after `n` iterations the
emitted bytes are the low 8 bits of the pre-mix combined scalars of the
successive states, and the state has been advanced by `n` mix steps. -/
theorem grbLoop_spec (digest : List Nat → List Nat) (count : Nat)
    (s : Yarrow) :
    grbLoop digest count s =
      ((List.range count).map
        (fun i => combine_entropy ((grbStep digest)^[i] s) % 256),
       (grbStep digest)^[count] s) := by
  induction count generalizing s with
  | zero => simp [grbLoop]
  | succ n ih =>
    have hstep : mix_entropy digest (combine_entropy s) s = grbStep digest s :=
      rfl
    simp only [grbLoop, hstep, ih (grbStep digest s), land_255_eq_mod,
      List.range_succ_eq_map, List.map_cons, List.map_map]
    simp [Function.iterate_succ_apply, Function.comp]

theorem grb_fst (digest : List Nat → List Nat) (current_time count : Nat)
    (s : Yarrow) :
    (generate_random_bytes digest current_time count s).1 =
      (List.range count).map
        (fun i => combine_entropy ((grbStep digest)^[i] s) % 256) := by
  simp [generate_random_bytes, grbLoop_spec]

theorem grb_length (digest : List Nat → List Nat) (current_time count : Nat)
    (s : Yarrow) :
    ((generate_random_bytes digest current_time count s).1).length = count :=
  by rw [grb_fst]; simp

theorem grb_snd (digest : List Nat → List Nat) (current_time count : Nat)
    (s : Yarrow) :
    (generate_random_bytes digest current_time count s).2 =
      reseed digest current_time
        (((List.range count).map
          (fun i =>
            combine_entropy ((grbStep digest)^[i] s) % 256)).getLast?.getD 0)
        ((grbStep digest)^[count] s) := by
  simp [generate_random_bytes, grbLoop_spec]

/-- C1: `generate_random_bytes(count)` returns exactly `count` bytes, the
`i`-th being the low 8 bits of the combined scalar computed before the `i`-th
mix step, and its final state is one `reseed` applied (with the last emitted
byte, or 0 when `count = 0`) to the state after `count` mix steps. -/
theorem generate_random_bytes_spec (digest : List Nat → List Nat)
    (current_time count : Nat) (s : Yarrow) :
    (generate_random_bytes digest current_time count s).1 =
      (List.range count).map
        (fun i => combine_entropy ((grbStep digest)^[i] s) % 256) ∧
    ((generate_random_bytes digest current_time count s).1).length = count ∧
    (generate_random_bytes digest current_time count s).2 =
      reseed digest current_time
        (((List.range count).map
          (fun i =>
            combine_entropy ((grbStep digest)^[i] s) % 256)).getLast?.getD 0)
        ((grbStep digest)^[count] s) :=
  ⟨grb_fst digest current_time count s, grb_length digest current_time count s,
   grb_snd digest current_time count s⟩

/-- Closed form for the rolling 33-ary fold of `combine_entropy`. -/
theorem foldl_combine_closed (pool : List Nat) (c : Nat) (hc : c < 2 ^ 64) :
    pool.foldl (fun c b => (c * 33 + b) % 2 ^ 64) c =
      (c * 33 ^ pool.length + polyPool pool) % 2 ^ 64 := by
  induction pool generalizing c with
  | nil =>
    simp only [List.foldl_nil, polyPool, List.length_nil, pow_zero, mul_one,
      Nat.add_zero]
    omega
  | cons b rest ih =>
    rw [List.foldl_cons,
      ih ((c * 33 + b) % 2 ^ 64) (Nat.mod_lt _ (by positivity))]
    have h1 : ((c * 33 + b) % 2 ^ 64) * 33 ^ rest.length + polyPool rest ≡
        (c * 33 + b) * 33 ^ rest.length + polyPool rest [MOD 2 ^ 64] :=
      ((Nat.mod_modEq _ _).mul_right _).add_right _
    have h2 : (c * 33 + b) * 33 ^ rest.length + polyPool rest =
        c * 33 ^ (rest.length + 1) + (b * 33 ^ rest.length + polyPool rest) :=
      by ring
    simp only [polyPool, List.length_cons]
    rw [← h2]
    exact h1

/-- C4: `combine_entropy` is the pool read as a polynomial in 33: starting
from `seed`, each pool byte is folded in insertion order by
`combined = combined * 33 + byte` with 64-bit wrapping, and
`last_reseed_time` is xored into the result. It is a pure function of the
state. -/
theorem combine_entropy_spec (s : Yarrow) (h : s.seed < 2 ^ 64) :
    combine_entropy s =
      Nat.xor ((s.seed * 33 ^ s.pool.length + polyPool s.pool) % 2 ^ 64)
        s.last_reseed_time := by
  unfold combine_entropy
  rw [foldl_combine_closed s.pool s.seed h]

/-- Witness for C4 at a concrete state. -/
theorem combine_entropy_spec_witness :
    (1 : Nat) < 2 ^ 64 ∧
    combine_entropy ⟨1, [2, 3], 5⟩ =
      Nat.xor ((1 * 33 ^ ([2, 3] : List Nat).length + polyPool [2, 3]) % 2 ^ 64)
        5 :=
  ⟨by decide, combine_entropy_spec ⟨1, [2, 3], 5⟩ (by decide)⟩

/-- The shift-or packing loop of `generate_random_number` agrees with
multiply-add big-endian packing as long as the accumulator cannot overflow:
the bytes are below 256 and at most 8 of them are folded. -/
theorem beFold (bytes : List Nat) (a : Nat) (hb : ∀ b ∈ bytes, b < 256)
    (hlen : bytes.length ≤ 8) (ha : a < 256 ^ (8 - bytes.length)) :
    bytes.foldl (fun a b => Nat.lor (a <<< 8 % 2 ^ 64) b) a =
      bytes.foldl (fun a b => a * 256 + b) a := by
  induction bytes generalizing a with
  | nil => rfl
  | cons b rest ih =>
    have hb0 : b < 256 := hb b (List.mem_cons_self b rest)
    have hlen' : rest.length ≤ 8 := by
      simp only [List.length_cons] at hlen
      omega
    have hexp : 256 ^ (8 - (rest.length + 1)) * 256 = 256 ^ (8 - rest.length)
        := by
      rw [← pow_succ]
      congr 1
      simp only [List.length_cons] at hlen
      omega
    have ha' : a < 256 ^ (8 - (rest.length + 1)) := by
      simpa using ha
    have ha2 : a * 256 + b < 256 ^ (8 - rest.length) := by
      calc a * 256 + b < (a + 1) * 256 := by omega
        _ ≤ 256 ^ (8 - (rest.length + 1)) * 256 :=
            Nat.mul_le_mul_right _ ha'
        _ = 256 ^ (8 - rest.length) := hexp
    have ha7 : a < 256 ^ 7 :=
      lt_of_lt_of_le ha' (Nat.pow_le_pow_right (by norm_num) (by omega))
    have hshift : (a <<< 8) % 2 ^ 64 = a * 256 := by
      rw [Nat.shiftLeft_eq]
      have h64 : a * 2 ^ 8 < 2 ^ 64 := by
        have h256 : (256 : Nat) ^ 7 = 2 ^ 56 := by norm_num
        rw [h256] at ha7
        calc a * 2 ^ 8 < 2 ^ 56 * 2 ^ 8 := by
              exact Nat.mul_lt_mul_of_lt_of_le ha7 (le_refl _) (by norm_num)
          _ = 2 ^ 64 := by norm_num
      exact Nat.mod_eq_of_lt h64
    have hor := Nat.mul_add_lt_is_or (b := b) (i := 8) (by omega) a
    have hstep : Nat.lor (a <<< 8 % 2 ^ 64) b = a * 256 + b := by
      rw [hshift, show a * 256 = 2 ^ 8 * a from by ring]
      exact hor.symm
    simp only [List.foldl_cons, hstep]
    exact ih (a * 256 + b) (fun x hx => hb x (List.mem_cons_of_mem b hx))
      hlen' ha2

/-- C5: `generate_random_number()` is the big-endian packing (most significant
byte first) of the 8 bytes `generate_random_bytes(8)` produces from the same
prior state, and it leaves the generator in the same final state. -/
theorem generate_random_number_spec (digest : List Nat → List Nat)
    (current_time : Nat) (s : Yarrow) :
    (generate_random_number digest current_time s).1 =
      bePack (generate_random_bytes digest current_time 8 s).1 ∧
    (generate_random_number digest current_time s).2 =
      (generate_random_bytes digest current_time 8 s).2 := by
  refine ⟨?_, rfl⟩
  have hbytes := grb_fst digest current_time 8 s
  have hlen := grb_length digest current_time 8 s
  have hb : ∀ b ∈ (generate_random_bytes digest current_time 8 s).1,
      b < 256 := by
    rw [hbytes]
    intro b hbm
    simp only [List.mem_map] at hbm
    obtain ⟨i, _, rfl⟩ := hbm
    exact Nat.mod_lt _ (by norm_num)
  exact beFold _ 0 hb (le_of_eq hlen) (by simp [hlen])

/-- C6: `generate_bounded_number(min, max)` returns
`min + (generate_random_number() % (max - min + 1))` with the same final
state, and the result lies in `[min, max]`, given `min ≤ max` and a
non-overflowing range width. -/
theorem generate_bounded_number_spec (digest : List Nat → List Nat)
    (current_time mn mx : Nat) (s : Yarrow) (h1 : mn ≤ mx)
    (_h2 : mx - mn + 1 ≤ 2 ^ 64) :
    (generate_bounded_number digest current_time mn mx s).1 =
      mn + (generate_random_number digest current_time s).1 % (mx - mn + 1) ∧
    (generate_bounded_number digest current_time mn mx s).2 =
      (generate_random_number digest current_time s).2 ∧
    mn ≤ (generate_bounded_number digest current_time mn mx s).1 ∧
    (generate_bounded_number digest current_time mn mx s).1 ≤ mx := by
  have hval : (generate_bounded_number digest current_time mn mx s).1 =
      mn + (generate_random_number digest current_time s).1 % (mx - mn + 1) :=
    rfl
  have hmod : (generate_random_number digest current_time s).1 % (mx - mn + 1)
      ≤ mx - mn := by
    have h3 := Nat.mod_lt (generate_random_number digest current_time s).1
      (y := mx - mn + 1) (by omega)
    omega
  exact ⟨hval, rfl, by omega, by omega⟩

/-- Witness for C6 at the concrete digest, clock, bounds 10 and 20, and a
concrete state. -/
theorem generate_bounded_number_spec_witness :
    (10 : Nat) ≤ 20 ∧
    ((generate_bounded_number constDigest 0 10 20 (Yarrow.new 0)).1 =
      10 + (generate_random_number constDigest 0 (Yarrow.new 0)).1 %
        (20 - 10 + 1) ∧
     (generate_bounded_number constDigest 0 10 20 (Yarrow.new 0)).2 =
      (generate_random_number constDigest 0 (Yarrow.new 0)).2 ∧
     10 ≤ (generate_bounded_number constDigest 0 10 20 (Yarrow.new 0)).1 ∧
     (generate_bounded_number constDigest 0 10 20 (Yarrow.new 0)).1 ≤ 20) :=
  ⟨by decide, generate_bounded_number_spec constDigest 0 10 20 (Yarrow.new 0)
    (by decide) (by decide)⟩

/-- Witness for C2 at a concrete clock reading, seed value and state. -/
theorem reseed_spec_witness :
    (reseed constDigest 100 5 (Yarrow.new 7)).pool =
      (mix_entropy constDigest
        (combine_entropy (add_entropy constDigest 5 (Yarrow.new 7)))
        (add_entropy constDigest 5 (Yarrow.new 7))).pool ∧
    (reseed constDigest 100 5 (Yarrow.new 7)).seed =
      (if 60 < 100 - (Yarrow.new 7).last_reseed_time then
        Nat.xor (Yarrow.new 7).seed 5
       else (Yarrow.new 7).seed) ∧
    (reseed constDigest 100 5 (Yarrow.new 7)).last_reseed_time =
      (if 60 < 100 - (Yarrow.new 7).last_reseed_time then 100
       else (Yarrow.new 7).last_reseed_time) :=
  reseed_spec constDigest 100 5 (Yarrow.new 7) (by decide)

theorem count_set {α : Type _} [DecidableEq α] :
    ∀ (l : List α) (i : Nat) (a : α), l.get? i = some a → ∀ b x : α,
      List.count x (l.set i b) + (if a = x then 1 else 0) =
        List.count x l + (if b = x then 1 else 0) := by
  intro l
  induction l with
  | nil =>
    intro i a h b x
    simp at h
  | cons c t ih =>
    intro i a h b x
    cases i with
    | zero =>
      have hca : c = a := by simpa using h
      subst hca
      by_cases h1 : c = x <;> by_cases h2 : b = x <;>
        simp [List.count_cons, h1, h2]
    | succ n =>
      simp only [List.get?_cons_succ] at h
      have hrec := ih n a h b x
      simp only [List.set_cons_succ, List.count_cons]
      by_cases h1 : c = x <;> simp [h1] <;> omega

/-- Swapping two in-range positions of a list preserves it as a multiset. -/
theorem listSwap_perm {α : Type _} (l : List α) (i j : Nat) :
    List.Perm (listSwap l i j) l := by
  classical
  unfold listSwap
  cases hi : l.get? i with
  | none => exact List.Perm.refl l
  | some a =>
    cases hj : l.get? j with
    | none => exact List.Perm.refl l
    | some b =>
      show List.Perm ((l.set i b).set j a) l
      obtain ⟨hjlen, -⟩ := List.get?_eq_some.mp hj
      have hset_j : (l.set i b).get? j = some b := by
        by_cases hij : i = j
        · subst hij
          rw [List.get?_eq_getElem?, List.getElem?_set_self (by simpa using hjlen)]
        · rw [List.get?_eq_getElem?, List.getElem?_set_ne hij,
            ← List.get?_eq_getElem?]
          exact hj
      refine List.perm_iff_count.mpr fun x => ?_
      have h1 := count_set (l.set i b) j b hset_j a x
      have h2 := count_set l i a hi b x
      omega

theorem shuffleGo_perm {α : Type _} (clock : Nat → Nat) :
    ∀ (i k : Nat) (l : List α), List.Perm (shuffleGo clock k i l) l
  | 0, _, l => List.Perm.refl l
  | i + 1, k, l =>
    List.Perm.trans
      (shuffleGo_perm clock i (k + 1) (listSwap l (i + 1) (clock k % (i + 2))))
      (listSwap_perm l (i + 1) (clock k % (i + 2)))

/-- C7: `shuffle` permutes the sequence: whatever the clock readings, the
multiset of elements after the swap loop equals the multiset before. -/
theorem shuffle_perm {α : Type _} (clock : Nat → Nat) (l : List α) :
    List.Perm (shuffle clock l) l :=
  shuffleGo_perm clock (l.length - 1) 0 l

/-- C10: on a sequence of length 0 or 1 the loop of `shuffle` runs zero
iterations, so the sequence is unchanged and no clock reading influences the
result. -/
theorem shuffle_short {α : Type _} (clock clock2 : Nat → Nat) (l : List α)
    (h : l.length ≤ 1) :
    shuffle clock l = l ∧ shuffle clock l = shuffle clock2 l := by
  cases l with
  | nil => exact ⟨rfl, rfl⟩
  | cons a t =>
    cases t with
    | nil => exact ⟨rfl, rfl⟩
    | cons b t2 => simp at h

/-- Witness for C10 on the one-element list `[5]` and two distinct clocks. -/
theorem shuffle_short_witness :
    ([5] : List Nat).length ≤ 1 ∧
    (shuffle (fun _ => 0) [5] = [5] ∧
     shuffle (fun _ => 0) ([5] : List Nat) = shuffle (fun k => k + 1) [5]) :=
  ⟨by decide, shuffle_short (fun _ => 0) (fun k => k + 1) [5] (by decide)⟩

end Horizon
